import Mathlib

/-!
Verification of the outbound-message pipeline, retry dispatcher, conversation
log, TTS chunker, history import and audio-visualizer teardown of the chat
component (src/LiveChat.ts, src/Visual3D.ts), as a shallow embedding in Lean.
Strings are modelled as Lean strings; character lists are used where the code
manipulates text character-wise.
-/

set_option maxRecDepth 10000

namespace LiveChatModel

/-! ## String utilities (models of the JavaScript string operations used) -/

/-- Model of JavaScript lowercasing as used by the error classifiers. -/
def lowerStr (s : String) : String := String.mk (s.data.map Char.toLower)

/-- Occurrence of a character list inside another, the model of
JavaScript includes on strings. -/
def containsSub (sub : List Char) : List Char → Bool
  | [] => sub.isPrefixOf []
  | c :: t => sub.isPrefixOf (c :: t) || containsSub sub t

/-- Model of hay includes sub for strings. -/
def containsStr (hay sub : String) : Bool := containsSub sub.data hay.data

/-- Characters removed by JavaScript trim and split on whitespace runs. -/
def isWs (c : Char) : Bool := c.isWhitespace

/-- Remove trailing whitespace characters. -/
def rtrimChars (cs : List Char) : List Char :=
  (cs.reverse.dropWhile isWs).reverse

/-- Model of JavaScript trim on character lists. -/
def trimChars (cs : List Char) : List Char :=
  rtrimChars (cs.dropWhile isWs)

/-- Model of JavaScript trim on strings. -/
def trimS (s : String) : String := String.mk (trimChars s.data)

/-- Comma splitter on character lists (model of split with a comma). -/
def splitCommaGo : List Char → List Char → List (List Char)
  | [], acc => [acc.reverse]
  | c :: t, acc =>
      if c = ',' then acc.reverse :: splitCommaGo t []
      else splitCommaGo t (c :: acc)

/-- Model of dataUrl.split(",")[1] used for screen captures: the
second comma-separated segment, empty when there is none. -/
def afterComma (s : String) : String :=
  String.mk ((splitCommaGo s.data []).getD 1 [])

/-! ## Retrying dispatcher (src/LiveChat.ts, sendMessageWithRetry) -/

/-- Outcome of one underlying chat.sendMessage attempt. -/
inductive AttemptResult where
  | success (resp : String)
  | failure (msg : String)
deriving DecidableEq, Repr

/-- errorMessage.includes("429") || errorMessage.includes("resource_exhausted")
on the lowercased message. -/
def isRateLimit (msg : String) : Bool :=
  containsStr (lowerStr msg) ("429") || containsStr (lowerStr msg) ("resource_exhausted")

/-- errorMessage.includes("500") || errorMessage.includes("internal")
on the lowercased message. -/
def isServerError (msg : String) : Bool :=
  containsStr (lowerStr msg) ("500") || containsStr (lowerStr msg) ("internal")

/-- The summarized error raised after retry exhaustion: the reason checks only
the substring 429 of the lowercased last message, then appends the original
message text. -/
def finalRetryError (lastMsg : String) : String :=
  (if containsStr (lowerStr lastMsg) ("429") then "API rate limit exceeded"
   else "A server error occurred")
    ++ " after multiple retries. Please try again later. Original error: " ++ lastMsg

deriving instance DecidableEq for Except

/-- Trace of one call to sendMessageWithRetry: how many attempts were made,
which sleeps happened between attempts (in order), and the final result. -/
structure RetryTrace where
  attempts : Nat
  sleeps : List Nat
  result : Except String String
deriving DecidableEq, Repr

/-- The while loop of sendMessageWithRetry. Arguments mirror the mutable
locals: remaining retries, current delay, next attempt index, sleeps so far
(reversed), last error seen. -/
def retryGo (outcome : Nat → AttemptResult) :
    Nat → Nat → Nat → List Nat → Option String → RetryTrace
  | 0, _, idx, sleeps, lastError =>
      { attempts := idx
        sleeps := sleeps.reverse
        result := Except.error (finalRetryError (lastError.getD (""))) }
  | Nat.succ r, delay, idx, sleeps, _ =>
      match outcome idx with
      | AttemptResult.success resp =>
          { attempts := idx + 1, sleeps := sleeps.reverse, result := Except.ok resp }
      | AttemptResult.failure msg =>
          if isRateLimit msg || isServerError msg then
            if r > 0 then
              retryGo outcome r (delay * 2) (idx + 1) (delay :: sleeps) (some msg)
            else
              retryGo outcome r delay (idx + 1) sleeps (some msg)
          else
            { attempts := idx + 1, sleeps := sleeps.reverse, result := Except.error msg }

/-- sendMessageWithRetry: let retries := 3, delay := 1000, then run the loop.
The outcome function gives the result of the i-th underlying attempt. -/
def sendMessageWithRetry (outcome : Nat → AttemptResult) : RetryTrace :=
  retryGo outcome 3 1000 0 [] none

/-! ## Context assembly and message send (src/LiveChat.ts, processPrompt
and sendMessage) -/

/-- A content part of the outbound request. -/
inductive Part where
  | text (s : String)
  | inlineData (data : String) (mimeType : String)
  | fileData (mimeType : String) (fileUri : String)
deriving DecidableEq, Repr

/-- An uploaded context file (the fields of the GenAI file handle that the
assembler reads, plus the isUploading placeholder marker). -/
structure ContextFile where
  displayName : String
  mimeType : String
  uri : String
  isUploading : Bool
deriving DecidableEq, Repr

/-- The video-analyzer context file reference. -/
structure VideoCtx where
  mimeType : String
  uri : String
deriving DecidableEq, Repr

/-- The file attached directly in chat; dataB64 models the base64 payload the
FileReader produces for it. -/
structure FileAttachment where
  name : String
  fileType : String
  dataB64 : String
deriving DecidableEq, Repr

/-- One entry of the conversation log (ManagedContent). -/
structure ChatMsg where
  role : String
  text : String
  fileName : Option String := none
  youtubeVideoId : Option String := none
  screenCaptures : List String := []
  contextFilesUsed : List String := []
  grounding : List String := []
deriving DecidableEq, Repr

/-- The component state touched by the send pipeline. -/
structure ChatState where
  chatHistory : List ChatMsg
  textInputValue : String
  promptFile : Option FileAttachment
  screenCaptures : List String
  contextFiles : List ContextFile
  videoContextFile : Option VideoCtx
  isVideoContextSent : Bool
  error : String
deriving DecidableEq, Repr

/-- Character allowed inside an extracted YouTube id (stops at query
separators and whitespace). -/
def ytIdChar (c : Char) : Bool := !(c = '&' || c = '?' || c.isWhitespace)

/-- First occurrence of marker inside cs, returning the suffix after it. -/
def findAfter (marker : List Char) : List Char → Option (List Char)
  | [] => if marker.isPrefixOf [] then some [] else none
  | c :: t =>
      if marker.isPrefixOf (c :: t) then some ((c :: t).drop marker.length)
      else findAfter marker t

/-- Modelled from the spec: the helper getYouTubeVideoId is imported from
utils.ts, which is not among the provided sources. Spec section 4.1 rule 1
says: if the text contains a recognizable YouTube URL, extract the video
identifier. We model recognition of the two standard URL shapes and
extraction of the identifier that follows the marker, returning none when
there is no recognizable URL or the identifier would be empty. -/
def getYouTubeVideoId (text : String) : Option String :=
  match findAfter (String.data ("youtube.com/watch?v=")) text.data with
  | some rest =>
      let idc := rest.takeWhile ytIdChar
      if idc.isEmpty then none else some (String.mk idc)
  | none =>
      match findAfter (String.data ("youtu.be/")) text.data with
      | some rest =>
          let idc := rest.takeWhile ytIdChar
          if idc.isEmpty then none else some (String.mk idc)
      | none => none

/-- contextFiles.filter((f) => !f.isUploading): the snapshot of ready
context files taken at send time. -/
def activeContextFilesOf (st : ChatState) : List ContextFile :=
  st.contextFiles.filter (fun f => !f.isUploading)

/-- The fileData parts pushed for the ready context files. -/
def contextFilePartsOf (st : ChatState) : List Part :=
  (activeContextFilesOf st).map (fun f => Part.fileData f.mimeType f.uri)

/-- The inline image parts pushed for the snapshotted screen captures. -/
def capturePartsOf (st : ChatState) : List Part :=
  st.screenCaptures.map (fun c => Part.inlineData (afterComma c) ("image/jpeg"))

/-- The fileData part pushed for an unsent video context, if any. -/
def videoPartsOf (st : ChatState) : List Part :=
  match st.videoContextFile with
  | some v => if st.isVideoContextSent then [] else [Part.fileData v.mimeType v.uri]
  | none => []

/-- The inline part pushed for the directly attached chat file, if any. -/
def filePartsOf : Option FileAttachment → List Part
  | some f => [Part.inlineData f.dataB64 f.fileType]
  | none => []

/-- The context-file instruction prefix added when ready context files exist. -/
def contextPromptOf (st : ChatState) : String :=
  if (activeContextFilesOf st).length > 0 then
    "Using the provided file(s) ("
      ++ String.intercalate (", ") ((activeContextFilesOf st).map (fun f => f.displayName))
      ++ ") as context, "
  else ""

/-- The assembled outbound request. -/
structure AssembledRequest where
  parts : List Part
  useSearch : Bool
  sentVideoContext : Bool
  finalText : String
deriving DecidableEq, Repr

/-- The pure request-assembly portion of processPrompt: build the parts in
source order (captures, context files, video context, attached file), compute
useSearch before the text part is unshifted, apply the YouTube rewrite and the
default describe text, then unshift the text part. -/
def assembleRequest (st : ChatState) (promptText : String)
    (file : Option FileAttachment) : AssembledRequest :=
  let youTubeVideoId := getYouTubeVideoId promptText
  let parts0 := capturePartsOf st ++ contextFilePartsOf st ++ videoPartsOf st
      ++ filePartsOf file
  let sentVideoContext := st.videoContextFile.isSome && !st.isVideoContextSent
  let apiText1 :=
    if sentVideoContext then "Using the provided video as context, " ++ promptText
    else promptText
  let useSearch := youTubeVideoId.isNone
      && (parts0.length == (activeContextFilesOf st).length)
  let apiText2 :=
    if youTubeVideoId.isSome then
      "Please analyze this youtube video and answer my questions. The video is at this URL: "
        ++ promptText
    else apiText1
  let apiText3 :=
    if 0 < parts0.length ∧ (trimChars apiText2.data).isEmpty = true then
      "Describe the provided file(s)."
    else apiText2
  let finalText := contextPromptOf st ++ apiText3
  { parts := Part.text finalText :: parts0
    useSearch := useSearch
    sentVideoContext := sentVideoContext
    finalText := finalText }

/-- The optimistic user entry appended before dispatch. -/
def userMessageOf (st : ChatState) (promptText : String)
    (file : Option FileAttachment) : ChatMsg :=
  { role := "user"
    text := promptText
    fileName := file.map (fun f => f.name)
    youtubeVideoId := getYouTubeVideoId promptText
    screenCaptures := st.screenCaptures
    contextFilesUsed := (activeContextFilesOf st).map (fun f => f.displayName) }

/-- The caller-facing mapping of a send failure message to the displayed
error text. -/
def mapSendError (m : String) : String :=
  if containsStr (lowerStr m) ("exceeds the maximum number of tokens allowed") then
    "Your request is too long. Please reduce text length, remove some files/captures, or start a new chat to reduce history size."
  else if containsStr (lowerStr m) ("api key not valid") then
    "The API key is invalid. Please check your configuration."
  else m

/-- Environment of one send: whether reading the attached file throws (only
consulted when a file is attached), and what the dispatcher returns. -/
structure SendOutcome where
  fileConvError : Option String
  sendResult : Except String String
deriving DecidableEq, Repr

/-- processPrompt: returns the new state, whether it succeeded (false models a
thrown error), and the dispatched request if dispatch was reached. On success
the model reply is appended, the video-context flag committed, and the
attached file and captures cleared; on dispatch failure the optimistic user
entry is removed by slice(0, -1); a file-read failure throws before the
optimistic append. -/
def processPrompt (st : ChatState) (promptText : String)
    (file : Option FileAttachment) (oc : SendOutcome) :
    ChatState × Bool × Option AssembledRequest :=
  match file, oc.fileConvError with
  | some _, some msg =>
      ({ st with error := "Error processing file: " ++ msg }, false, none)
  | _, _ =>
      let req := assembleRequest st promptText file
      let st1 := { st with
        chatHistory := st.chatHistory ++ [userMessageOf st promptText file] }
      match oc.sendResult with
      | Except.ok respText =>
          ({ st1 with
              chatHistory := st1.chatHistory ++ [{ role := "model", text := respText }]
              isVideoContextSent := st1.isVideoContextSent || req.sentVideoContext
              promptFile := none
              screenCaptures := [] }, true, some req)
      | Except.error msg =>
          ({ st1 with
              chatHistory := st1.chatHistory.dropLast
              error := mapSendError msg }, false, some req)

/-- Result of one sendMessage invocation. -/
inductive SendResult where
  | noop
  | success
  | failure
deriving DecidableEq, Repr

/-- sendMessage: trim the text input; if it is empty and there is no attached
file and no captures, do nothing; otherwise run processPrompt and clear the
text input only on success. -/
def sendMessage (st : ChatState) (oc : SendOutcome) :
    ChatState × SendResult × Option AssembledRequest :=
  let text := trimS st.textInputValue
  if text = "" ∧ st.promptFile = none ∧ st.screenCaptures = [] then
    (st, SendResult.noop, none)
  else
    match processPrompt st text st.promptFile oc with
    | (st1, true, req) => ({ st1 with textInputValue := "" }, SendResult.success, req)
    | (st1, false, req) => (st1, SendResult.failure, req)

/-- The input fields a user may have changed between two sends (the log and
the video-context-sent flag are component managed). -/
structure InputSetup where
  textInputValue : String
  promptFile : Option FileAttachment
  screenCaptures : List String
  contextFiles : List ContextFile
  videoContextFile : Option VideoCtx
deriving DecidableEq, Repr

/-- Apply a user input setup before a send, preserving the log, the
video-context-sent flag and the error banner. -/
def applySetup (st : ChatState) (i : InputSetup) : ChatState :=
  { st with
    textInputValue := i.textInputValue
    promptFile := i.promptFile
    screenCaptures := i.screenCaptures
    contextFiles := i.contextFiles
    videoContextFile := i.videoContextFile }

/-- Run a sequence of sends, each preceded by arbitrary user edits to the
input fields; returns the final state and the number of successful sends. -/
def runSends : ChatState → List (InputSetup × SendOutcome) → ChatState × Nat
  | st, [] => (st, 0)
  | st, (i, oc) :: rest =>
      ((runSends (sendMessage (applySetup st i) oc).1 rest).1,
       (if (sendMessage (applySetup st i) oc).2.1 = SendResult.success then 1 else 0)
         + (runSends (sendMessage (applySetup st i) oc).1 rest).2)

/-! ## Text-to-speech chunking (src/LiveChat.ts, the speak method) -/

/-- Sentence terminators of the sentence-splitting regular expression. -/
def isSentenceTerm (c : Char) : Bool := c = '.' || c = '!' || c = '?'

/-- A character matched by the trailing class of the regular expression:
terminator or whitespace. -/
def isTermOrWs (c : Char) : Bool := isSentenceTerm c || c.isWhitespace

/-- One pass of the global sentence match: skip characters on which no match
can start, then repeatedly take a maximal run of non-terminators followed by a
maximal run of terminators and whitespace. Fuel is the remaining length. -/
def sentencesGo (fuel : Nat) (cs : List Char) : List (List Char) :=
  match fuel, cs with
  | 0, _ => []
  | Nat.succ _, [] => []
  | Nat.succ f, c :: t =>
      if isSentenceTerm c then sentencesGo f t
      else
        let a := (c :: t).takeWhile (fun x => !isSentenceTerm x)
        let b := ((c :: t).drop a.length).takeWhile isTermOrWs
        (a ++ b) :: sentencesGo f ((c :: t).drop (a.length + b.length))

/-- text.match of the sentence regular expression (or the empty list). -/
def sentencesOf (cs : List Char) : List (List Char) :=
  sentencesGo cs.length cs

/-- Accumulating word splitter: the model of split on whitespace runs. -/
def splitWordsAux : List Char → List Char → List (List Char)
  | [], acc => if acc.isEmpty then [] else [acc.reverse]
  | c :: cs, acc =>
      if isWs c then
        if acc.isEmpty then splitWordsAux cs []
        else acc.reverse :: splitWordsAux cs []
      else splitWordsAux cs (c :: acc)

/-- The whitespace-delimited words of a character list, in order. -/
def splitWordsChars (cs : List Char) : List (List Char) :=
  splitWordsAux cs []

/-- The greedy word-packing loop for an over-budget sentence: push the current
chunk and restart from the word when adding the word (plus a separating space)
would exceed 160 characters, otherwise extend the current chunk. -/
def packWords : List (List Char) → List Char → List (List Char)
  | [], cur => if cur.isEmpty then [] else [cur]
  | w :: ws, cur =>
      if cur.length + w.length + 1 > 160 then cur :: packWords ws w
      else packWords ws (if cur.isEmpty then w else cur ++ ' ' :: w)

/-- Per-sentence chunking: trim, skip empty, word-pack sentences longer than
160 characters, keep short sentences whole. -/
def chunkSentence (s : List Char) : List (List Char) :=
  let t := trimChars s
  if t.isEmpty then []
  else if t.length > 160 then packWords (splitWordsChars t) []
  else [t]

/-- The chunk list queued to the speech synthesizer for a reply text. -/
def speakChunks (text : List Char) : List (List Char) :=
  ((sentencesOf text).map chunkSentence).flatten

/-- Space-joined rendering of a word group (what the packing loop builds). -/
def joinSpace : List (List Char) → List Char
  | [] => []
  | [w] => w
  | w :: ws => w ++ ' ' :: joinSpace ws

/-! ## History import (src/LiveChat.ts, handleHistoryUpload) -/

/-- Minimal JSON value model for the parsed history file. -/
inductive JsonVal where
  | jstr (s : String)
  | jnum (n : Int)
  | jbool (b : Bool)
  | jnull
  | jarr (elems : List JsonVal)
  | jobj (fields : List (String × JsonVal))

/-- First binding of a key in an object field list. -/
def lookupField : List (String × JsonVal) → String → Option JsonVal
  | [], _ => none
  | (k, v) :: rest, key => if k == key then some v else lookupField rest key

/-- Property access msg.key on a value on which access does not throw:
undefined (none) on non-object values such as numbers, strings, booleans and
arrays. Property access on a null element throws a TypeError in JavaScript;
that path is modeled by elementThrows and is checked by importHistory before
this function is ever consulted, so the jnull case here is unreachable in
the model of the import. -/
def getField (m : JsonVal) (key : String) : Option JsonVal :=
  match m with
  | JsonVal.jobj fields => lookupField fields key
  | _ => none

/-- Whether evaluating msg.role on this element throws a TypeError in
JavaScript: property access on null throws; on every other JSON value it
yields undefined or a field value. -/
def elementThrows : JsonVal → Bool
  | JsonVal.jnull => true
  | _ => false

/-- msg.role === "user" || msg.role === "model". -/
def roleIsValid : Option JsonVal → Bool
  | some (JsonVal.jstr s) => s == "user" || s == "model"
  | _ => false

/-- typeof msg.text === "string". -/
def textIsString : Option JsonVal → Bool
  | some (JsonVal.jstr _) => true
  | _ => false

/-- The element validation of the history import filter. -/
def isValidMsg (m : JsonVal) : Bool :=
  roleIsValid (getField m ("role")) && textIsString (getField m ("text"))

/-- Conversion of a validated element to a log entry. -/
def toHistoryMsg (m : JsonVal) : ChatMsg :=
  { role := match getField m ("role") with
      | some (JsonVal.jstr s) => s
      | _ => ""
    text := match getField m ("text") with
      | some (JsonVal.jstr s) => s
      | _ => "" }

/-- handleHistoryUpload after JSON parsing: a non-array aborts with an error
leaving the log unchanged; an array containing a null element aborts as well,
because msg.role inside the filter callback throws a TypeError that lands in
the surrounding catch before the log is assigned; otherwise the array
replaces the log with its valid elements in order, silently dropping invalid
ones. The Bool reports success. -/
def importHistory (j : JsonVal) (old : List ChatMsg) : List ChatMsg × Bool :=
  match j with
  | JsonVal.jarr elems =>
      if elems.any elementThrows then (old, false)
      else ((elems.filter isValidMsg).map toHistoryMsg, true)
  | _ => (old, false)

/-! ## Visualizer source lifecycle (src/Visual3D.ts) -/

/-- An audio context handle: shared contexts belong to the chat component (the
context of the borrowed microphone gain node); owned contexts are constructed
by setupVideoVisualizer. -/
inductive Ctx where
  | shared (i : Nat)
  | owned (i : Nat)
deriving DecidableEq, Repr

/-- Observable audio-graph effects of visualizer teardown code. -/
inductive Effect where
  | disconnectGainFromAnalyser (gainCtx : Nat)
  | removePlayListener (videoEl : Nat)
  | disconnectSource (ownedCtx : Nat)
  | disconnectAnalyser (ownedCtx : Nat)
  | closeContext (c : Ctx)
deriving DecidableEq, Repr

/-- The stored sourceCleanup closure. -/
inductive Cleanup where
  | mic (gainCtx : Nat)
  | video (videoEl : Nat) (ownedCtx : Nat)
deriving DecidableEq, Repr

/-- What running a stored cleanup closure does: the mic cleanup only
disconnects the borrowed gain node from the own analyser; the video cleanup
removes its listener, disconnects, and closes the context it created. -/
def cleanupEffects : Option Cleanup → List Effect
  | none => []
  | some (Cleanup.mic g) => [Effect.disconnectGainFromAnalyser g]
  | some (Cleanup.video v c) =>
      [Effect.removePlayListener v, Effect.disconnectSource c,
       Effect.disconnectAnalyser c, Effect.closeContext (Ctx.owned c)]

/-- Visualizer component state: the two reactive properties, the stored
cleanup, a fresh-context counter and whether an analyser exists. -/
structure VisState where
  videoElement : Option Nat
  inputNode : Option Nat
  sourceCleanup : Option Cleanup
  nextCtx : Nat
  hasAnalyser : Bool
deriving DecidableEq, Repr

/-- The initial visualizer state. -/
def initVis : VisState :=
  { videoElement := none
    inputNode := none
    sourceCleanup := none
    nextCtx := 0
    hasAnalyser := false }

/-- setupMicVisualizer: run the previous cleanup, connect the borrowed gain
node to a new analyser, store the mic cleanup. -/
def setupMicVisualizer (st : VisState) (g : Nat) : VisState × List Effect :=
  ({ st with sourceCleanup := some (Cleanup.mic g), hasAnalyser := true },
   cleanupEffects st.sourceCleanup)

/-- setupVideoVisualizer: run the previous cleanup, construct a dedicated
audio context, wire it, store the video cleanup. -/
def setupVideoVisualizer (st : VisState) (v : Nat) : VisState × List Effect :=
  ({ st with
      sourceCleanup := some (Cleanup.video v st.nextCtx)
      nextCtx := st.nextCtx + 1
      hasAnalyser := true },
   cleanupEffects st.sourceCleanup)

/-- Reactive property changes delivered to the updated callback, plus view
teardown (disconnectedCallback). -/
inductive VisEvent where
  | setVideoElement (v : Option Nat)
  | setInputNode (g : Option Nat)
  | teardownView
deriving DecidableEq, Repr

/-- The updated callback: a present media element always takes precedence and
is (re)wired when that property changed; otherwise a present mic node is wired
when it changed or when the media element was just removed; with neither
present the current source is cleaned up. -/
def stepVis (st : VisState) (e : VisEvent) : VisState × List Effect :=
  match e with
  | VisEvent.setVideoElement v =>
      let st1 := { st with videoElement := v }
      match v with
      | some el => setupVideoVisualizer st1 el
      | none =>
          match st1.inputNode with
          | some g => setupMicVisualizer st1 g
          | none =>
              ({ st1 with sourceCleanup := none, hasAnalyser := false },
               cleanupEffects st1.sourceCleanup)
  | VisEvent.setInputNode g =>
      let st1 := { st with inputNode := g }
      match st1.videoElement with
      | some _ => (st1, [])
      | none =>
          match g with
          | some gn => setupMicVisualizer st1 gn
          | none =>
              ({ st1 with sourceCleanup := none, hasAnalyser := false },
               cleanupEffects st1.sourceCleanup)
  | VisEvent.teardownView =>
      ({ st with sourceCleanup := none }, cleanupEffects st.sourceCleanup)

/-- Run a sequence of visualizer events, collecting all emitted effects. -/
def runVis : VisState → List VisEvent → List Effect
  | _, [] => []
  | st, e :: es =>
      let step := stepVis st e
      step.2 ++ runVis step.1 es

/-- The formalization of the original C5 wording: every screen-capture inline
part sits at a smaller index than every text part. -/
def capturesBeforeText (ps : List Part) : Prop :=
  ∀ i j : Fin ps.length,
    (match ps.get i with | Part.inlineData _ _ => true | _ => false) = true →
    (match ps.get j with | Part.text _ => true | _ => false) = true →
    (i : Nat) < (j : Nat)

instance (ps : List Part) : Decidable (capturesBeforeText ps) := by
  unfold capturesBeforeText; infer_instance

/-! ## Concrete fixtures used by witnesses and counterexamples -/

/-- A ready context file fixture. -/
def cfNotes : ContextFile :=
  { displayName := "notes.txt"
    mimeType := "text/plain"
    uri := "uri-ctx-1"
    isUploading := false }

/-- A video-context fixture. -/
def vcClip : VideoCtx :=
  { mimeType := "video/mp4"
    uri := "uri-vid-1" }

/-- A state holding exactly one ready context file and nothing else. -/
def stCtx : ChatState :=
  { chatHistory := []
    textInputValue := "hi"
    promptFile := none
    screenCaptures := []
    contextFiles := [cfNotes]
    videoContextFile := none
    isVideoContextSent := false
    error := "" }

/-- A state holding an unsent video context. -/
def stVid : ChatState :=
  { chatHistory := []
    textInputValue := ""
    promptFile := none
    screenCaptures := []
    contextFiles := []
    videoContextFile := some vcClip
    isVideoContextSent := false
    error := "" }

/-- A state holding exactly one screen capture and nothing else. -/
def stCap : ChatState :=
  { chatHistory := []
    textInputValue := "hi"
    promptFile := none
    screenCaptures := ["data:image/jpeg;base64,XYZ"]
    contextFiles := []
    videoContextFile := none
    isVideoContextSent := false
    error := "" }

/-- An idle state with pending context sources but no sendable input. -/
def stIdle : ChatState :=
  { chatHistory := []
    textInputValue := "   "
    promptFile := none
    screenCaptures := []
    contextFiles := [cfNotes]
    videoContextFile := some vcClip
    isVideoContextSent := false
    error := "" }

/-- A 500-character sentence without punctuation: one hundred words of four
letters separated by single spaces (with a trailing space). -/
def c7text : List Char :=
  (List.replicate 100 ('a' :: 'b' :: 'c' :: 'd' :: ' ' :: [])).flatten

/-- A valid history element. -/
def histValid : JsonVal :=
  JsonVal.jobj [("role", JsonVal.jstr ("user")), ("text", JsonVal.jstr ("hi"))]

/-- An invalid history element: role outside the allowed set, no text. -/
def histInvalid : JsonVal :=
  JsonVal.jobj [("role", JsonVal.jstr ("other"))]

/-- A successful dispatcher outcome fixture. -/
def ocOk : SendOutcome :=
  { fileConvError := none, sendResult := Except.ok ("sure, here it is") }

/-- A failing dispatcher outcome fixture. -/
def ocErr : SendOutcome :=
  { fileConvError := none, sendResult := Except.error ("500 internal") }

/-- An input setup fixture with plain text only. -/
def setupHello : InputSetup :=
  { textInputValue := "hello"
    promptFile := none
    screenCaptures := []
    contextFiles := []
    videoContextFile := none }

/-- A two-send sequence fixture: one success then one failure. -/
def sendSteps : List (InputSetup × SendOutcome) :=
  [(setupHello, ocOk), (setupHello, ocErr)]

/-! # Theorems -/

/-! ## Helper lemmas -/

theorem isPrefixOf_self (l : List Char) : l.isPrefixOf l = true := by
  induction l with
  | nil => rfl
  | cons c t ih => simp [List.isPrefixOf, ih]

theorem containsSub_append_self (pre sub : List Char) :
    containsSub sub (pre ++ sub) = true := by
  induction pre with
  | nil =>
      cases sub with
      | nil => rfl
      | cons c t => simp [containsSub, isPrefixOf_self]
  | cons c p ih => simp [containsSub, ih]

theorem retryGo_zero (outcome : Nat → AttemptResult) (delay idx : Nat)
    (sleeps : List Nat) (last : Option String) :
    retryGo outcome 0 delay idx sleeps last =
      { attempts := idx
        sleeps := sleeps.reverse
        result := Except.error (finalRetryError (last.getD (""))) } := rfl

theorem retryGo_succ (outcome : Nat → AttemptResult) (r delay idx : Nat)
    (sleeps : List Nat) (last : Option String) :
    retryGo outcome (r + 1) delay idx sleeps last =
      match outcome idx with
      | AttemptResult.success resp =>
          { attempts := idx + 1, sleeps := sleeps.reverse, result := Except.ok resp }
      | AttemptResult.failure msg =>
          if isRateLimit msg || isServerError msg then
            if r > 0 then
              retryGo outcome r (delay * 2) (idx + 1) (delay :: sleeps) (some msg)
            else
              retryGo outcome r delay (idx + 1) sleeps (some msg)
          else
            { attempts := idx + 1, sleeps := sleeps.reverse,
              result := Except.error msg } := rfl

/-! ## Claim C1: retry schedule -/

/-- Claim C1: when every attempt fails with a rate-limited or
transient-server-error classification, the dispatcher makes exactly 3 total
attempts, sleeping 1000ms before the second and 2000ms before the third, with
no delay after the final attempt; when the first attempt fails with any other
error class, it fails immediately after that single attempt with zero
retries. -/
theorem retry_attempt_schedule (outcome : Nat → AttemptResult) :
    ((∀ i, i < 3 → ∃ m, outcome i = AttemptResult.failure m ∧
        (isRateLimit m || isServerError m) = true) →
      (sendMessageWithRetry outcome).attempts = 3 ∧
      (sendMessageWithRetry outcome).sleeps = [1000, 2000]) ∧
    (∀ m, outcome 0 = AttemptResult.failure m →
      (isRateLimit m || isServerError m) = false →
      (sendMessageWithRetry outcome).attempts = 1 ∧
      (sendMessageWithRetry outcome).sleeps = [] ∧
      (sendMessageWithRetry outcome).result = Except.error m) := by
  constructor
  · intro h
    obtain ⟨m0, h0, c0⟩ := h 0 (by omega)
    obtain ⟨m1, h1, c1⟩ := h 1 (by omega)
    obtain ⟨m2, h2, c2⟩ := h 2 (by omega)
    have e1 : sendMessageWithRetry outcome =
        retryGo outcome 2 2000 1 [1000] (some m0) := by
      show retryGo outcome (2 + 1) 1000 0 [] none = _
      rw [retryGo_succ, h0]
      simp [c0]
    have e2 : retryGo outcome 2 2000 1 [1000] (some m0) =
        retryGo outcome 1 4000 2 [2000, 1000] (some m1) := by
      show retryGo outcome (1 + 1) 2000 1 [1000] (some m0) = _
      rw [retryGo_succ, h1]
      simp [c1]
    have e3 : retryGo outcome 1 4000 2 [2000, 1000] (some m1) =
        retryGo outcome 0 4000 3 [2000, 1000] (some m2) := by
      show retryGo outcome (0 + 1) 4000 2 [2000, 1000] (some m1) = _
      rw [retryGo_succ, h2]
      simp [c2]
    rw [e1, e2, e3, retryGo_zero]
    exact ⟨rfl, rfl⟩
  · intro m h0 c0
    have e1 : sendMessageWithRetry outcome =
        { attempts := 1, sleeps := [], result := Except.error m } := by
      show retryGo outcome (2 + 1) 1000 0 [] none = _
      rw [retryGo_succ, h0]
      simp [c0]
    rw [e1]
    exact ⟨rfl, rfl, rfl⟩

/-- Witness for C1 at concrete outcomes: an always-rate-limited send makes 3
attempts with sleeps 1000 and 2000; a first-attempt validation error makes a
single attempt with no sleeps. -/
theorem retry_attempt_schedule_witness :
    ((sendMessageWithRetry (fun _ => AttemptResult.failure ("http 429"))).attempts = 3 ∧
      (sendMessageWithRetry (fun _ => AttemptResult.failure ("http 429"))).sleeps =
        [1000, 2000]) ∧
    ((sendMessageWithRetry (fun _ => AttemptResult.failure ("bad request"))).attempts = 1 ∧
      (sendMessageWithRetry (fun _ => AttemptResult.failure ("bad request"))).sleeps = [] ∧
      (sendMessageWithRetry (fun _ => AttemptResult.failure ("bad request"))).result =
        Except.error ("bad request")) :=
  ⟨(retry_attempt_schedule _).1 (fun i _ => ⟨"http 429", rfl, by decide⟩),
   (retry_attempt_schedule _).2 ("bad request") rfl (by decide)⟩

/-! ## Claim C6: summarized error after exhaustion (corrected) -/

/-- Counterexample to C6 as stated: a message containing only
resource_exhausted is classified rate-limited by the dispatcher, yet the
summarized error after exhaustion announces a generic server error and never
mentions rate limiting, because the summary checks only for the substring
429. -/
theorem retry_summary_counterexample :
    isRateLimit ("resource_exhausted") = true ∧
    (sendMessageWithRetry (fun _ => AttemptResult.failure ("resource_exhausted"))).result =
      Except.error
        ("A server error occurred after multiple retries. Please try again later. Original error: resource_exhausted") ∧
    containsStr
      ("A server error occurred after multiple retries. Please try again later. Original error: resource_exhausted")
      ("rate limit") = false := by
  refine ⟨by decide, by decide, by decide⟩

/-- Claim C6 amended: after exhausting all retriable attempts the dispatcher
raises a single summarized error that identifies rate-limiting exactly when
the last underlying error message contains 429 (a generic server error
otherwise, even for errors classified rate-limited only via
resource_exhausted), and that includes the last underlying error message. -/
theorem retry_summary_amended (outcome : Nat → AttemptResult)
    (h : ∀ i, i < 3 → ∃ m, outcome i = AttemptResult.failure m ∧
      (isRateLimit m || isServerError m) = true) :
    ∃ m2, outcome 2 = AttemptResult.failure m2 ∧
      (sendMessageWithRetry outcome).result = Except.error (finalRetryError m2) ∧
      finalRetryError m2 =
        (if containsStr (lowerStr m2) ("429") then "API rate limit exceeded"
         else "A server error occurred")
          ++ " after multiple retries. Please try again later. Original error: " ++ m2 ∧
      containsStr (finalRetryError m2) m2 = true := by
  obtain ⟨m0, h0, c0⟩ := h 0 (by omega)
  obtain ⟨m1, h1, c1⟩ := h 1 (by omega)
  obtain ⟨m2, h2, c2⟩ := h 2 (by omega)
  refine ⟨m2, h2, ?_, rfl, ?_⟩
  · have e1 : sendMessageWithRetry outcome =
        retryGo outcome 2 2000 1 [1000] (some m0) := by
      show retryGo outcome (2 + 1) 1000 0 [] none = _
      rw [retryGo_succ, h0]
      simp [c0]
    have e2 : retryGo outcome 2 2000 1 [1000] (some m0) =
        retryGo outcome 1 4000 2 [2000, 1000] (some m1) := by
      show retryGo outcome (1 + 1) 2000 1 [1000] (some m0) = _
      rw [retryGo_succ, h1]
      simp [c1]
    have e3 : retryGo outcome 1 4000 2 [2000, 1000] (some m1) =
        retryGo outcome 0 4000 3 [2000, 1000] (some m2) := by
      show retryGo outcome (0 + 1) 4000 2 [2000, 1000] (some m1) = _
      rw [retryGo_succ, h2]
      simp [c2]
    rw [e1, e2, e3, retryGo_zero]
    rfl
  · show containsSub m2.data (finalRetryError m2).data = true
    have hd : (finalRetryError m2).data =
        ((if containsStr (lowerStr m2) ("429") then "API rate limit exceeded"
          else "A server error occurred")
            ++ " after multiple retries. Please try again later. Original error: ").data
          ++ m2.data := by
      show ((_ ++ _) ++ m2).data = _
      rw [String.data_append]
    rw [hd]
    exact containsSub_append_self _ _

/-- Witness for the amended C6 at a concrete outcome that exhausts all
attempts with a 429-free retriable message. -/
theorem retry_summary_amended_witness :
    ∃ m2, (fun _ => AttemptResult.failure ("500 oops")) 2 = AttemptResult.failure m2 ∧
      (sendMessageWithRetry (fun _ => AttemptResult.failure ("500 oops"))).result =
        Except.error (finalRetryError m2) ∧
      finalRetryError m2 =
        (if containsStr (lowerStr m2) ("429") then "API rate limit exceeded"
         else "A server error occurred")
          ++ " after multiple retries. Please try again later. Original error: " ++ m2 ∧
      containsStr (finalRetryError m2) m2 = true :=
  retry_summary_amended _ (fun i _ => ⟨"500 oops", rfl, by decide⟩)

/-! ## Claim C10: empty input is a no-op -/

/-- Claim C10: when the trimmed text input is empty, no prompt file is
attached, and the screen-capture set is empty, sendMessage is a no-op:
nothing is dispatched and the state is unchanged, regardless of any pending
context files or unsent video context. -/
theorem empty_send_noop (st : ChatState) (oc : SendOutcome)
    (h1 : trimS st.textInputValue = "") (h2 : st.promptFile = none)
    (h3 : st.screenCaptures = []) :
    sendMessage st oc = (st, SendResult.noop, none) := by
  simp [sendMessage, h1, h2, h3]

/-- Witness for C10: a state with whitespace-only input, no attachment and no
captures, but with a ready context file and an unsent video context present,
is left untouched and nothing is dispatched. -/
theorem empty_send_noop_witness :
    stIdle.contextFiles = [cfNotes] ∧
    stIdle.videoContextFile = some vcClip ∧
    stIdle.isVideoContextSent = false ∧
    sendMessage stIdle ocOk = (stIdle, SendResult.noop, none) :=
  ⟨rfl, rfl, rfl, empty_send_noop stIdle ocOk (by decide) rfl rfl⟩

/-! ## Claim C9: microphone teardown never closes the shared context -/

theorem cleanupEffects_no_shared_close (c : Option Cleanup) (eff : Effect)
    (h : eff ∈ cleanupEffects c) :
    ∀ i, eff ≠ Effect.closeContext (Ctx.shared i) := by
  intro i
  match c with
  | none => simp [cleanupEffects] at h
  | some (Cleanup.mic g) =>
      simp [cleanupEffects] at h
      subst h
      intro hc
      cases hc
  | some (Cleanup.video v cx) =>
      simp [cleanupEffects] at h
      rcases h with h | h | h | h <;> subst h <;> intro hc <;> cases hc

theorem stepVis_effects_from_cleanup (st : VisState) (e : VisEvent) (eff : Effect)
    (h : eff ∈ (stepVis st e).2) : ∃ c, eff ∈ cleanupEffects c := by
  cases e with
  | setVideoElement v =>
      cases v with
      | some el =>
          exact ⟨st.sourceCleanup, h⟩
      | none =>
          rcases hi : st.inputNode with _ | g
          · refine ⟨st.sourceCleanup, ?_⟩
            simp only [stepVis, hi] at h
            exact h
          · refine ⟨st.sourceCleanup, ?_⟩
            simp only [stepVis, hi] at h
            exact h
  | setInputNode g =>
      rcases hv : st.videoElement with _ | el
      · cases g with
        | some gn =>
            refine ⟨st.sourceCleanup, ?_⟩
            simp only [stepVis, hv] at h
            exact h
        | none =>
            refine ⟨st.sourceCleanup, ?_⟩
            simp only [stepVis, hv] at h
            exact h
      · simp only [stepVis, hv] at h
        exact absurd h (List.not_mem_nil eff)
  | teardownView =>
      exact ⟨st.sourceCleanup, h⟩

theorem runVis_no_shared_close (events : List VisEvent) :
    ∀ (st : VisState) (eff : Effect), eff ∈ runVis st events →
      ∀ i, eff ≠ Effect.closeContext (Ctx.shared i) := by
  induction events with
  | nil => intro st eff h; simp [runVis] at h
  | cons e es ih =>
      intro st eff h i
      rw [runVis] at h
      rcases List.mem_append.mp h with h1 | h2
      · obtain ⟨c, hc⟩ := stepVis_effects_from_cleanup st e eff h1
        exact cleanupEffects_no_shared_close c eff hc i
      · exact ih _ eff h2 i

/-- Claim C9: over every sequence of visualization source attachments and
detachments, tearing down a microphone source only disconnects the
visualizer's own analysis node from the borrowed gain node, and no step of
any sequence ever closes a shared (borrowed) audio context; only contexts the
video visualizer constructed itself are ever closed. -/
theorem mic_teardown_safe :
    (∀ g, cleanupEffects (some (Cleanup.mic g)) =
      [Effect.disconnectGainFromAnalyser g]) ∧
    (∀ (events : List VisEvent) (eff : Effect), eff ∈ runVis initVis events →
      ∀ i, eff ≠ Effect.closeContext (Ctx.shared i)) :=
  ⟨fun _ => rfl,
   fun events eff h i => runVis_no_shared_close events initVis eff h i⟩

/-- Witness for C9: in a concrete attach mic, attach video, detach all
sequence, the emitted mic teardown effect is the gain-node disconnect and is
not a close of the shared context. -/
theorem mic_teardown_safe_witness :
    Effect.disconnectGainFromAnalyser 5 ∈
      runVis initVis [VisEvent.setInputNode (some 5),
        VisEvent.setVideoElement (some 7), VisEvent.setVideoElement none,
        VisEvent.setInputNode none] ∧
    Effect.disconnectGainFromAnalyser 5 ≠ Effect.closeContext (Ctx.shared 0) :=
  ⟨by decide,
   mic_teardown_safe.2 [VisEvent.setInputNode (some 5),
     VisEvent.setVideoElement (some 7), VisEvent.setVideoElement none,
     VisEvent.setInputNode none] (Effect.disconnectGainFromAnalyser 5)
     (by decide) 0⟩

/-! ## Claim C8: history import filtering (corrected) -/

/-- Counterexample to C8 as stated: a null array element has no user/model
role yet is not silently dropped — property access on null throws a
TypeError, the surrounding catch aborts the whole import, and the log is not
replaced by the valid elements: with one valid element and one null element
the log stays unchanged (here empty) instead of holding the valid element. -/
theorem history_import_counterexample :
    isValidMsg histValid = true ∧
    elementThrows JsonVal.jnull = true ∧
    importHistory (JsonVal.jarr [histValid, JsonVal.jnull]) [] = ([], false) := by
  refine ⟨by decide, by decide, by decide⟩

/-- Claim C8 amended: importing an array none of whose elements is null
replaces the log with exactly the valid elements (role in user/model and
string text) in their original order, silently dropping each invalid element
without aborting — in particular one valid user element plus one invalid
element yields a single-entry log holding the valid element; an array
containing a null element instead aborts the import leaving the log
unchanged. -/
theorem history_import_amended (elems : List JsonVal) (old : List ChatMsg) :
    (elems.any elementThrows = false →
      importHistory (JsonVal.jarr elems) old =
        ((elems.filter isValidMsg).map toHistoryMsg, true)) ∧
    (elems.any elementThrows = true →
      importHistory (JsonVal.jarr elems) old = (old, false)) ∧
    (∀ m ∈ elems, isValidMsg m = true ↔
      ((getField m ("role") = some (JsonVal.jstr ("user")) ∨
        getField m ("role") = some (JsonVal.jstr ("model"))) ∧
       ∃ s, getField m ("text") = some (JsonVal.jstr s))) ∧
    importHistory (JsonVal.jarr [histValid, histInvalid]) [] =
      ([{ role := "user", text := "hi" }], true) := by
  refine ⟨?_, ?_, ?_, by decide⟩
  · intro h
    simp [importHistory, h]
  · intro h
    simp [importHistory, h]
  · intro m _
    unfold isValidMsg
    constructor
    · intro h
      rw [Bool.and_eq_true] at h
      obtain ⟨hr, ht⟩ := h
      constructor
      · rcases hg : getField m ("role") with _ | v
        · rw [hg] at hr; cases hr
        · rcases v with s | n | b | _ | xs | fs <;> rw [hg] at hr <;>
            simp only [roleIsValid, Bool.false_eq_true] at hr
          rw [Bool.or_eq_true, beq_iff_eq, beq_iff_eq] at hr
          rcases hr with h | h <;> subst h
          · exact Or.inl rfl
          · exact Or.inr rfl
      · rcases hg : getField m ("text") with _ | v
        · rw [hg] at ht; cases ht
        · rcases v with s | n | b | _ | xs | fs <;> rw [hg] at ht <;>
            simp only [textIsString, Bool.false_eq_true] at ht
          exact ⟨s, rfl⟩
    · intro h
      obtain ⟨hr, ⟨s, ht⟩⟩ := h
      rw [Bool.and_eq_true, ht]
      refine ⟨?_, rfl⟩
      rcases hr with h | h <;> rw [h] <;> simp [roleIsValid]

/-- Witness for the amended C8: the concrete null-free two-element array
replaces the log with the single valid element, the concrete array with a
null element aborts leaving the log unchanged, and the valid element
satisfies the validity characterization. -/
theorem history_import_amended_witness :
    importHistory (JsonVal.jarr [histValid, histInvalid]) [] =
      (([histValid, histInvalid].filter isValidMsg).map toHistoryMsg, true) ∧
    importHistory (JsonVal.jarr [histValid, JsonVal.jnull]) [] = ([], false) ∧
    (isValidMsg histValid = true ↔
      ((getField histValid ("role") = some (JsonVal.jstr ("user")) ∨
        getField histValid ("role") = some (JsonVal.jstr ("model"))) ∧
       ∃ s, getField histValid ("text") = some (JsonVal.jstr s))) :=
  ⟨(history_import_amended [histValid, histInvalid] []).1 (by decide),
   (history_import_amended [histValid, JsonVal.jnull] []).2.1 (by decide),
   (history_import_amended [histValid, histInvalid] []).2.2.1 histValid
     (by simp)⟩

/-! ## Assembler projection lemmas -/

theorem assembleRequest_parts (st : ChatState) (text : String)
    (file : Option FileAttachment) :
    (assembleRequest st text file).parts =
      Part.text (assembleRequest st text file).finalText ::
        (capturePartsOf st ++ contextFilePartsOf st ++ videoPartsOf st
          ++ filePartsOf file) := rfl

theorem assembleRequest_useSearch (st : ChatState) (text : String)
    (file : Option FileAttachment) :
    (assembleRequest st text file).useSearch =
      ((getYouTubeVideoId text).isNone
        && ((capturePartsOf st ++ contextFilePartsOf st ++ videoPartsOf st
              ++ filePartsOf file).length == (activeContextFilesOf st).length)) := rfl

theorem assembleRequest_sentVideo (st : ChatState) (text : String)
    (file : Option FileAttachment) :
    (assembleRequest st text file).sentVideoContext =
      (st.videoContextFile.isSome && !st.isVideoContextSent) := rfl

theorem trimChars_ne_nil (cs : List Char) (c : Char) (hc : c ∈ cs)
    (hw : isWs c = false) : trimChars cs ≠ [] := by
  intro h
  unfold trimChars rtrimChars at h
  rw [List.reverse_eq_nil_iff, List.dropWhile_eq_nil_iff] at h
  have hcd : c ∈ cs.dropWhile isWs := by
    have hsplit := List.takeWhile_append_dropWhile (p := isWs) (l := cs)
    rcases List.mem_append.mp (by rw [hsplit]; exact hc) with h1 | h1
    · exact absurd (List.mem_takeWhile_imp h1) (by rw [hw]; exact Bool.false_ne_true)
    · exact h1
  have := h c (List.mem_reverse.mpr hcd)
  rw [hw] at this
  cases this

theorem assembleRequest_finalText_of_yt (st : ChatState) (text : String)
    (file : Option FileAttachment) (h : (getYouTubeVideoId text).isSome = true) :
    (assembleRequest st text file).finalText =
      contextPromptOf st
        ++ ("Please analyze this youtube video and answer my questions. The video is at this URL: "
          ++ text) := by
  unfold assembleRequest
  simp only [h, if_true]
  rw [if_neg]
  intro hcond
  have hP : ('P' : Char) ∈
      (String.data
        ("Please analyze this youtube video and answer my questions. The video is at this URL: "
          ++ text)) := by
    rw [String.data_append]
    exact List.mem_append_left _ (by decide)
  exact trimChars_ne_nil _ 'P' hP (by decide) (List.isEmpty_iff.mp hcond.2)

/-! ## Claim C3: the web-search gate -/

/-- Claim C3: search augmentation is enabled exactly when no YouTube id was
extracted and the non-text parts are exactly the ready context-file parts;
in particular, for text hi with one ready context file and nothing else the
prompt is prefixed with a context-file instruction naming the display name
and search is enabled. -/
theorem assembler_search_gate :
    (∀ (st : ChatState) (text : String) (file : Option FileAttachment),
      (assembleRequest st text file).useSearch = true ↔
        (getYouTubeVideoId text = none ∧
          (assembleRequest st text file).parts.tail = contextFilePartsOf st)) ∧
    ((assembleRequest stCtx ("hi") none).useSearch = true ∧
      (assembleRequest stCtx ("hi") none).finalText =
        "Using the provided file(s) (notes.txt) as context, hi" ∧
      cfNotes.displayName = "notes.txt") := by
  constructor
  · intro st text file
    rw [assembleRequest_useSearch, assembleRequest_parts, List.tail_cons]
    have hB : (contextFilePartsOf st).length = (activeContextFilesOf st).length := by
      simp [contextFilePartsOf]
    constructor
    · intro h
      rw [Bool.and_eq_true, Option.isNone_iff_eq_none, beq_iff_eq] at h
      obtain ⟨hyt, hlen⟩ := h
      refine ⟨hyt, ?_⟩
      simp only [List.length_append] at hlen
      have hcap : capturePartsOf st = [] :=
        List.length_eq_zero.mp (by omega)
      have hvid : videoPartsOf st = [] :=
        List.length_eq_zero.mp (by omega)
      have hfile : filePartsOf file = [] :=
        List.length_eq_zero.mp (by omega)
      rw [hcap, hvid, hfile]
      simp
    · intro h
      obtain ⟨hyt, heq⟩ := h
      rw [Bool.and_eq_true, Option.isNone_iff_eq_none, beq_iff_eq]
      exact ⟨hyt, by rw [heq, hB]⟩
  · exact ⟨by decide, by decide, rfl⟩

/-! ## Claim C4: YouTube precedence (corrected) -/

/-- Counterexample to C4 as stated: with an unsent video context present and
a YouTube URL as text, the id is extracted, yet the video-context fileData
part is still included in the outbound parts and the video-context-sent flag
is still committed on success, so the local video-context path is not
bypassed. -/
theorem yt_precedence_counterexample :
    getYouTubeVideoId ("https://youtu.be/abc123") = some ("abc123") ∧
    stVid.videoContextFile = some vcClip ∧ stVid.isVideoContextSent = false ∧
    Part.fileData ("video/mp4") ("uri-vid-1") ∈
      (assembleRequest stVid ("https://youtu.be/abc123") none).parts ∧
    (processPrompt stVid ("https://youtu.be/abc123") none ocOk).1.isVideoContextSent
      = true := by
  refine ⟨by decide, rfl, rfl, by decide, by decide⟩

/-- Claim C4 amended: whenever a YouTube id is extracted from the text, the
id is non-empty, the prompt is rewritten to ask the backend to analyze the
remote video by URL (overwriting the video-context prefix), and the
web-search path is bypassed; however, an unsent local video context is still
appended as a fileData part and the video-context-sent flag is still
committed after a successful send. -/
theorem yt_precedence_amended (st : ChatState) (text : String)
    (file : Option FileAttachment) (id : String)
    (h : getYouTubeVideoId text = some id) :
    id ≠ "" ∧
    (assembleRequest st text file).finalText =
      contextPromptOf st
        ++ ("Please analyze this youtube video and answer my questions. The video is at this URL: "
          ++ text) ∧
    (assembleRequest st text file).useSearch = false ∧
    (∀ v, st.videoContextFile = some v → st.isVideoContextSent = false →
      Part.fileData v.mimeType v.uri ∈ (assembleRequest st text file).parts ∧
      (assembleRequest st text file).sentVideoContext = true ∧
      (∀ resp,
        (processPrompt st text file
          { fileConvError := none, sendResult := Except.ok resp }).1.isVideoContextSent
            = true)) := by
  refine ⟨?_, ?_, ?_, ?_⟩
  · intro he
    subst he
    unfold getYouTubeVideoId at h
    rcases h1 : findAfter (String.data ("youtube.com/watch?v=")) text.data with _ | r1
    · rcases h2 : findAfter (String.data ("youtu.be/")) text.data with _ | r2
      · simp only [h1, h2] at h
        cases h
      · simp only [h1, h2] at h
        by_cases hemp : (r2.takeWhile ytIdChar).isEmpty
        · rw [if_pos hemp] at h; cases h
        · rw [if_neg hemp] at h
          have hid := Option.some.inj h
          have hdata : r2.takeWhile ytIdChar = [] := congrArg String.data hid
          rw [List.isEmpty_iff] at hemp
          exact hemp hdata
    · simp only [h1] at h
      by_cases hemp : (r1.takeWhile ytIdChar).isEmpty
      · rw [if_pos hemp] at h; cases h
      · rw [if_neg hemp] at h
        have hid := Option.some.inj h
        have hdata : r1.takeWhile ytIdChar = [] := congrArg String.data hid
        rw [List.isEmpty_iff] at hemp
        exact hemp hdata
  · exact assembleRequest_finalText_of_yt st text file (by rw [h]; rfl)
  · rw [assembleRequest_useSearch, h]
    rfl
  · intro v hv hs
    have hvp : videoPartsOf st = [Part.fileData v.mimeType v.uri] := by
      simp [videoPartsOf, hv, hs]
    refine ⟨?_, ?_, ?_⟩
    · rw [assembleRequest_parts, hvp]
      simp
    · rw [assembleRequest_sentVideo, hv, hs]
      rfl
    · intro resp
      cases file with
      | none =>
          simp [processPrompt, assembleRequest_sentVideo, hv, hs]
      | some f =>
          simp [processPrompt, assembleRequest_sentVideo, hv, hs]

/-- Witness for the amended C4 at a concrete YouTube URL with an unsent video
context present. -/
theorem yt_precedence_amended_witness :
    ("abc123" : String) ≠ "" ∧
    (assembleRequest stVid ("https://youtu.be/abc123") none).useSearch = false ∧
    Part.fileData vcClip.mimeType vcClip.uri ∈
      (assembleRequest stVid ("https://youtu.be/abc123") none).parts ∧
    (processPrompt stVid ("https://youtu.be/abc123") none
      { fileConvError := none, sendResult := Except.ok ("done") }).1.isVideoContextSent
        = true := by
  have h := yt_precedence_amended stVid ("https://youtu.be/abc123") none ("abc123")
    (by decide)
  exact ⟨h.1, h.2.2.1, (h.2.2.2 vcClip rfl rfl).1,
    (h.2.2.2 vcClip rfl rfl).2.2 ("done")⟩

/-! ## Claim C5: position of the screen captures (corrected) -/

/-- Counterexample to C5 as stated: with one screen capture and text hi, the
assembled sequence is the text part followed by the capture part, so the
capture is not positioned before the text part. -/
theorem captures_position_counterexample :
    stCap.screenCaptures ≠ [] ∧
    (assembleRequest stCap ("hi") none).parts =
      [Part.text ("hi"), Part.inlineData ("XYZ") ("image/jpeg")] ∧
    ¬ capturesBeforeText (assembleRequest stCap ("hi") none).parts := by
  refine ⟨by decide, by decide, by decide⟩

/-- Claim C5 amended: for every send that includes at least one screen
capture, the captures appear in the final assembled sequence as inline image
parts in capture order immediately after the leading text part, before the
context-file, video-context and attached-file parts. -/
theorem captures_follow_text (st : ChatState) (text : String)
    (file : Option FileAttachment) (_h : st.screenCaptures ≠ []) :
    (assembleRequest st text file).parts.head? =
      some (Part.text (assembleRequest st text file).finalText) ∧
    (assembleRequest st text file).parts.tail.take st.screenCaptures.length =
      st.screenCaptures.map
        (fun c => Part.inlineData (afterComma c) ("image/jpeg")) := by
  constructor
  · rw [assembleRequest_parts]
    rfl
  · rw [assembleRequest_parts, List.tail_cons]
    have hlen : st.screenCaptures.length = (capturePartsOf st).length := by
      simp [capturePartsOf]
    rw [hlen]
    simp only [List.append_assoc]
    rw [List.take_left]
    rfl

/-- Witness for the amended C5 at a concrete single-capture state. -/
theorem captures_follow_text_witness :
    (assembleRequest stCap ("hi") none).parts.head? =
      some (Part.text (assembleRequest stCap ("hi") none).finalText) ∧
    (assembleRequest stCap ("hi") none).parts.tail.take stCap.screenCaptures.length =
      stCap.screenCaptures.map
        (fun c => Part.inlineData (afterComma c) ("image/jpeg")) :=
  captures_follow_text stCap ("hi") none (by decide)

/-! ## Claim C2: log shape and input preservation across sends -/

theorem sendMessage_history_len (st : ChatState) (oc : SendOutcome) :
    (sendMessage st oc).1.chatHistory.length =
      st.chatHistory.length +
        (if (sendMessage st oc).2.1 = SendResult.success then 2 else 0) := by
  by_cases hc : trimS st.textInputValue = "" ∧ st.promptFile = none
      ∧ st.screenCaptures = []
  · simp [sendMessage, hc]
  · rcases hf : st.promptFile with _ | f
    · have hc2 : ¬(trimS st.textInputValue = "" ∧ st.screenCaptures = []) :=
        fun hx => hc ⟨hx.1, hf, hx.2⟩
      rcases he : oc.fileConvError with _ | m <;>
        rcases hs : oc.sendResult with r | r <;>
        simp [sendMessage, hc2, processPrompt, hf, he, hs, List.dropLast_concat]
    · rcases he : oc.fileConvError with _ | m <;>
        rcases hs : oc.sendResult with r | r <;>
        simp [sendMessage, processPrompt, hf, he, hs, List.dropLast_concat]

theorem sendMessage_success_shape (st : ChatState) (oc : SendOutcome)
    (h : (sendMessage st oc).2.1 = SendResult.success) :
    ∃ u m, (sendMessage st oc).1.chatHistory = st.chatHistory ++ [u, m] ∧
      u.role = "user" ∧ m.role = "model" := by
  by_cases hc : trimS st.textInputValue = "" ∧ st.promptFile = none
      ∧ st.screenCaptures = []
  · simp [sendMessage, hc] at h
  · rcases hf : st.promptFile with _ | f
    · have hc2 : ¬(trimS st.textInputValue = "" ∧ st.screenCaptures = []) :=
        fun hx => hc ⟨hx.1, hf, hx.2⟩
      rcases he : oc.fileConvError with _ | m <;>
        rcases hs : oc.sendResult with r | r <;>
        simp [sendMessage, hc2, processPrompt, hf, he, hs] at h ⊢ <;>
        exact ⟨_, _, ⟨rfl, rfl⟩, rfl, rfl⟩
    · rcases he : oc.fileConvError with _ | m <;>
        rcases hs : oc.sendResult with r | r <;>
        simp [sendMessage, processPrompt, hf, he, hs] at h ⊢ <;>
        exact ⟨_, _, ⟨rfl, rfl⟩, rfl, rfl⟩

theorem sendMessage_failure_preserves (st : ChatState) (oc : SendOutcome)
    (h : (sendMessage st oc).2.1 = SendResult.failure) :
    (sendMessage st oc).1.chatHistory = st.chatHistory ∧
    (sendMessage st oc).1.textInputValue = st.textInputValue ∧
    (sendMessage st oc).1.promptFile = st.promptFile ∧
    (sendMessage st oc).1.screenCaptures = st.screenCaptures ∧
    (sendMessage st oc).1.isVideoContextSent = st.isVideoContextSent := by
  by_cases hc : trimS st.textInputValue = "" ∧ st.promptFile = none
      ∧ st.screenCaptures = []
  · simp [sendMessage, hc] at h
  · rcases hf : st.promptFile with _ | f
    · have hc2 : ¬(trimS st.textInputValue = "" ∧ st.screenCaptures = []) :=
        fun hx => hc ⟨hx.1, hf, hx.2⟩
      rcases he : oc.fileConvError with _ | m <;>
        rcases hs : oc.sendResult with r | r <;>
        simp [sendMessage, hc2, processPrompt, hf, he, hs, List.dropLast_concat] at h ⊢
    · rcases he : oc.fileConvError with _ | m <;>
        rcases hs : oc.sendResult with r | r <;>
        simp [sendMessage, processPrompt, hf, he, hs, List.dropLast_concat] at h ⊢

theorem runSends_history_len (steps : List (InputSetup × SendOutcome)) :
    ∀ st : ChatState, (runSends st steps).1.chatHistory.length =
      st.chatHistory.length + 2 * (runSends st steps).2 := by
  induction steps with
  | nil => intro st; simp [runSends]
  | cons p rest ih =>
      intro st
      rcases p with ⟨i, oc⟩
      have hstep := sendMessage_history_len (applySetup st i) oc
      have happ : (applySetup st i).chatHistory = st.chatHistory := rfl
      rw [happ] at hstep
      have hrec := ih (sendMessage (applySetup st i) oc).1
      simp only [runSends]
      rw [hrec, hstep]
      by_cases hsucc : (sendMessage (applySetup st i) oc).2.1 = SendResult.success <;>
        simp [hsucc] <;> omega

/-- Claim C2: starting from an empty log, after any sequence of sends (with
arbitrary user edits in between) the log length is twice the number of
successful sends: each success appends a user and a model entry, each failure
leaves the log exactly as before (its optimistic user entry removed), and a
failed send preserves the typed text, attached prompt file, screen captures
and the video-context-sent flag. -/
theorem conversation_log_invariant :
    (∀ (st : ChatState) (steps : List (InputSetup × SendOutcome)),
      st.chatHistory = [] →
      (runSends st steps).1.chatHistory.length = 2 * (runSends st steps).2) ∧
    (∀ (st : ChatState) (oc : SendOutcome),
      (sendMessage st oc).2.1 = SendResult.success →
      ∃ u m, (sendMessage st oc).1.chatHistory = st.chatHistory ++ [u, m] ∧
        u.role = "user" ∧ m.role = "model") ∧
    (∀ (st : ChatState) (oc : SendOutcome),
      (sendMessage st oc).2.1 = SendResult.failure →
      (sendMessage st oc).1.chatHistory = st.chatHistory ∧
      (sendMessage st oc).1.textInputValue = st.textInputValue ∧
      (sendMessage st oc).1.promptFile = st.promptFile ∧
      (sendMessage st oc).1.screenCaptures = st.screenCaptures ∧
      (sendMessage st oc).1.isVideoContextSent = st.isVideoContextSent) := by
  refine ⟨?_, sendMessage_success_shape, sendMessage_failure_preserves⟩
  intro st steps h
  rw [runSends_history_len steps st, h]
  simp

/-- Witness for C2: a concrete run of one successful and one failed send from
an empty log ends with exactly two entries, and the concrete failing send
preserves the input fields. -/
theorem conversation_log_invariant_witness :
    (runSends stCtx sendSteps).1.chatHistory.length =
      2 * (runSends stCtx sendSteps).2 ∧
    (∃ u m, (sendMessage stCtx ocOk).1.chatHistory = stCtx.chatHistory ++ [u, m] ∧
      u.role = "user" ∧ m.role = "model") ∧
    ((sendMessage stCtx ocErr).1.chatHistory = stCtx.chatHistory ∧
      (sendMessage stCtx ocErr).1.textInputValue = stCtx.textInputValue ∧
      (sendMessage stCtx ocErr).1.promptFile = stCtx.promptFile ∧
      (sendMessage stCtx ocErr).1.screenCaptures = stCtx.screenCaptures ∧
      (sendMessage stCtx ocErr).1.isVideoContextSent = stCtx.isVideoContextSent) :=
  ⟨conversation_log_invariant.1 stCtx sendSteps rfl,
   conversation_log_invariant.2.1 stCtx ocOk (by decide),
   conversation_log_invariant.2.2 stCtx ocErr (by decide)⟩

/-! ## Claim C7: text-to-speech chunking (corrected) -/

theorem splitWordsAux_nil (acc : List Char) :
    splitWordsAux [] acc = if acc.isEmpty then [] else [acc.reverse] := rfl

theorem splitWordsAux_cons (c : Char) (cs acc : List Char) :
    splitWordsAux (c :: cs) acc =
      if isWs c then
        (if acc.isEmpty then splitWordsAux cs []
         else acc.reverse :: splitWordsAux cs [])
      else splitWordsAux cs (c :: acc) := rfl

theorem packWords_nil (cur : List Char) :
    packWords [] cur = if cur.isEmpty then [] else [cur] := rfl

theorem packWords_cons (w : List Char) (ws : List (List Char)) (cur : List Char) :
    packWords (w :: ws) cur =
      if cur.length + w.length + 1 > 160 then cur :: packWords ws w
      else packWords ws (if cur.isEmpty then w else cur ++ ' ' :: w) := rfl

theorem joinSpace_cons_cons (w x : List Char) (g : List (List Char)) :
    joinSpace (w :: x :: g) = w ++ ' ' :: joinSpace (x :: g) := rfl

theorem chunkSentence_eq (s : List Char) :
    chunkSentence s =
      if (trimChars s).isEmpty then []
      else if (trimChars s).length > 160 then
        packWords (splitWordsChars (trimChars s)) []
      else [trimChars s] := rfl

theorem sentencesGo_nil (f : Nat) : sentencesGo f [] = [] := by
  cases f <;> rfl

theorem sentencesGo_succ_cons (f : Nat) (c : Char) (t : List Char) :
    sentencesGo (f + 1) (c :: t) =
      if isSentenceTerm c then sentencesGo f t
      else
        ((c :: t).takeWhile (fun x => !isSentenceTerm x) ++
          ((c :: t).drop
            ((c :: t).takeWhile (fun x => !isSentenceTerm x)).length).takeWhile
              isTermOrWs) ::
          sentencesGo f ((c :: t).drop
            (((c :: t).takeWhile (fun x => !isSentenceTerm x)).length +
              (((c :: t).drop
                ((c :: t).takeWhile (fun x => !isSentenceTerm x)).length).takeWhile
                  isTermOrWs).length)) := rfl

theorem takeWhile_all (p : Char → Bool) :
    ∀ l : List Char, (∀ c ∈ l, p c = true) → l.takeWhile p = l := by
  intro l
  induction l with
  | nil => intro _; rfl
  | cons c t ih =>
      intro h
      rw [List.takeWhile_cons, if_pos (h c (List.mem_cons_self c t)),
        ih (fun x hx => h x (List.mem_cons_of_mem c hx))]

theorem sentencesOf_no_term (cs : List Char)
    (h : ∀ c ∈ cs, isSentenceTerm c = false) :
    sentencesOf cs = if cs.isEmpty then [] else [cs] := by
  cases cs with
  | nil => rfl
  | cons c t =>
      have hc : isSentenceTerm c = false := h c (List.mem_cons_self c t)
      have hA : (c :: t).takeWhile (fun x => !isSentenceTerm x) = c :: t :=
        takeWhile_all _ _ (by intro x hx; simp [h x hx])
      unfold sentencesOf
      show sentencesGo (t.length + 1) (c :: t) = _
      rw [sentencesGo_succ_cons, if_neg (by rw [hc]; exact Bool.false_ne_true), hA]
      simp [List.drop_length, sentencesGo_nil]

theorem splitWordsAux_ok : ∀ (cs acc : List Char),
    (∀ c ∈ acc, isWs c = false) →
    ∀ w ∈ splitWordsAux cs acc, w ≠ [] ∧ ∀ c ∈ w, isWs c = false := by
  intro cs
  induction cs with
  | nil =>
      intro acc hacc w hw
      rw [splitWordsAux_nil] at hw
      by_cases he : acc.isEmpty = true
      · rw [if_pos he] at hw
        cases hw
      · rw [if_neg he] at hw
        rcases List.mem_singleton.mp hw with rfl
        refine ⟨?_, ?_⟩
        · rw [Ne, List.reverse_eq_nil_iff]
          intro h0
          rw [h0] at he
          exact he rfl
        · intro x hx
          exact hacc x (List.mem_reverse.mp hx)
  | cons c t ih =>
      intro acc hacc w hw
      rw [splitWordsAux_cons] at hw
      by_cases hws : isWs c = true
      · rw [if_pos hws] at hw
        by_cases he : acc.isEmpty = true
        · rw [if_pos he] at hw
          exact ih [] (by simp) w hw
        · rw [if_neg he] at hw
          rcases List.mem_cons.mp hw with rfl | hw2
          · refine ⟨?_, ?_⟩
            · rw [Ne, List.reverse_eq_nil_iff]
              intro h0
              rw [h0] at he
              exact he rfl
            · intro x hx
              exact hacc x (List.mem_reverse.mp hx)
          · exact ih [] (by simp) w hw2
      · rw [if_neg hws] at hw
        refine ih (c :: acc) ?_ w hw
        intro x hx
        rcases List.mem_cons.mp hx with rfl | hx2
        · exact Bool.not_eq_true _ ▸ (by simpa using hws)
        · exact hacc x hx2

theorem splitWordsAux_nonws (w : List Char) : ∀ (rest acc : List Char),
    (∀ c ∈ w, isWs c = false) →
    splitWordsAux (w ++ rest) acc = splitWordsAux rest (w.reverse ++ acc) := by
  induction w with
  | nil => intro rest acc _; simp
  | cons c w ih =>
      intro rest acc h
      have hc : isWs c = false := h c (List.mem_cons_self c w)
      rw [List.cons_append, splitWordsAux_cons,
        if_neg (by rw [hc]; exact Bool.false_ne_true),
        ih rest (c :: acc) (fun x hx => h x (List.mem_cons_of_mem c hx))]
      simp

theorem splitWords_single (w : List Char) (hne : w ≠ [])
    (hw : ∀ c ∈ w, isWs c = false) : splitWordsChars w = [w] := by
  have hx := splitWordsAux_nonws w [] [] hw
  simp only [List.append_nil] at hx
  unfold splitWordsChars
  rw [hx, splitWordsAux_nil,
    if_neg (by simp [List.isEmpty_iff, List.reverse_eq_nil_iff, hne])]
  simp

theorem splitWords_joinSpace : ∀ g : List (List Char),
    (∀ w ∈ g, w ≠ [] ∧ ∀ c ∈ w, isWs c = false) →
    splitWordsChars (joinSpace g) = g := by
  intro g
  induction g with
  | nil => intro _; rfl
  | cons w g ih =>
      intro h
      cases g with
      | nil =>
          exact splitWords_single w (h w (List.mem_cons_self w [])).1
            (h w (List.mem_cons_self w [])).2
      | cons w2 g2 =>
          have hw := h w (List.mem_cons_self w (w2 :: g2))
          rw [joinSpace_cons_cons]
          unfold splitWordsChars
          rw [splitWordsAux_nonws w (' ' :: joinSpace (w2 :: g2)) [] hw.2,
            splitWordsAux_cons,
            if_pos (show isWs ' ' = true by decide),
            if_neg (show ¬((w.reverse ++ [] : List Char).isEmpty = true) by
              simpa using hw.1)]
          have ihh := ih (fun x hx => h x (List.mem_cons_of_mem w hx))
          rw [show splitWordsAux (joinSpace (w2 :: g2)) [] =
            splitWordsChars (joinSpace (w2 :: g2)) from rfl, ihh]
          simp

theorem splitWordsAux_ws_snoc (c : Char) (hc : isWs c = true) :
    ∀ (cs acc : List Char), splitWordsAux (cs ++ [c]) acc = splitWordsAux cs acc := by
  intro cs
  induction cs with
  | nil =>
      intro acc
      rw [List.nil_append, splitWordsAux_cons, if_pos hc, splitWordsAux_nil acc]
      by_cases he : acc.isEmpty = true
      · rw [if_pos he, if_pos he]
        rfl
      · rw [if_neg he, if_neg he]
        rfl
  | cons d ds ih =>
      intro acc
      rw [List.cons_append, splitWordsAux_cons, splitWordsAux_cons]
      by_cases hd : isWs d = true
      · rw [if_pos hd, if_pos hd]
        by_cases he : acc.isEmpty = true
        · rw [if_pos he, if_pos he, ih]
        · rw [if_neg he, if_neg he, ih]
      · rw [if_neg hd, if_neg hd, ih]

theorem splitWords_ws_append : ∀ (ys xs : List Char),
    (∀ c ∈ ys, isWs c = true) → splitWordsChars (xs ++ ys) = splitWordsChars xs := by
  intro ys
  induction ys with
  | nil => intro xs _; rw [List.append_nil]
  | cons y ys ih =>
      intro xs h
      have hstep : xs ++ y :: ys = (xs ++ [y]) ++ ys := by simp
      rw [hstep, ih (xs ++ [y]) (fun c hc => h c (List.mem_cons_of_mem y hc))]
      exact splitWordsAux_ws_snoc y (h y (List.mem_cons_self y ys)) xs []

theorem splitWords_dropWhile (cs : List Char) :
    splitWordsChars (cs.dropWhile isWs) = splitWordsChars cs := by
  induction cs with
  | nil => rfl
  | cons c t ih =>
      by_cases hc : isWs c = true
      · have hr : splitWordsChars (c :: t) = splitWordsChars t := by
          show splitWordsAux (c :: t) [] = _
          rw [splitWordsAux_cons, if_pos hc]
          rfl
        rw [List.dropWhile_cons, if_pos hc, ih, hr]
      · rw [List.dropWhile_cons, if_neg hc]

theorem splitWords_trim (cs : List Char) :
    splitWordsChars (trimChars cs) = splitWordsChars cs := by
  unfold trimChars
  have h1 := List.takeWhile_append_dropWhile (p := isWs)
    (l := (cs.dropWhile isWs).reverse)
  have h2 := congrArg List.reverse h1
  rw [List.reverse_append, List.reverse_reverse] at h2
  have hws : ∀ c ∈ ((cs.dropWhile isWs).reverse.takeWhile isWs).reverse,
      isWs c = true := by
    intro c hcm
    exact List.mem_takeWhile_imp (List.mem_reverse.mp hcm)
  calc splitWordsChars (rtrimChars (cs.dropWhile isWs))
      = splitWordsChars (rtrimChars (cs.dropWhile isWs) ++
          ((cs.dropWhile isWs).reverse.takeWhile isWs).reverse) :=
        (splitWords_ws_append _ _ hws).symm
    _ = splitWordsChars (cs.dropWhile isWs) := by
        unfold rtrimChars
        rw [h2]
    _ = splitWordsChars cs := splitWords_dropWhile cs

theorem joinSpace_snoc : ∀ (g : List (List Char)) (w : List Char), g ≠ [] →
    joinSpace (g ++ [w]) = joinSpace g ++ ' ' :: w := by
  intro g
  induction g with
  | nil => intro w h; exact absurd rfl h
  | cons x g ih =>
      intro w _
      cases g with
      | nil => rfl
      | cons y g2 =>
          rw [List.cons_append, List.cons_append, joinSpace_cons_cons]
          rw [show (g2 ++ [w] : List (List Char)) = g2 ++ [w] from rfl]
          have hrec := ih w (by simp)
          rw [List.cons_append] at hrec
          rw [hrec, joinSpace_cons_cons]
          simp

theorem joinSpace_ne_nil : ∀ g : List (List Char), g ≠ [] →
    (∀ w ∈ g, w ≠ []) → joinSpace g ≠ [] := by
  intro g hg hw
  cases g with
  | nil => exact absurd rfl hg
  | cons x g2 =>
      cases g2 with
      | nil => exact hw x (List.mem_cons_self x [])
      | cons y g3 =>
          rw [joinSpace_cons_cons]
          intro hcontra
          rcases List.append_eq_nil.mp hcontra with ⟨_, h2⟩
          cases h2

theorem packWords_spec : ∀ (ws g : List (List Char)) (cur : List Char),
    cur = joinSpace g →
    (∀ w ∈ ws, w ≠ [] ∧ (∀ c ∈ w, isWs c = false) ∧ w.length ≤ 159) →
    (∀ w ∈ g, w ≠ [] ∧ ∀ c ∈ w, isWs c = false) →
    cur.length ≤ 160 →
    (∀ ch ∈ packWords ws cur, ch.length ≤ 160) ∧
    ((packWords ws cur).map splitWordsChars).flatten = g ++ ws := by
  intro ws
  induction ws with
  | nil =>
      intro g cur hcur hws hg hlen
      subst hcur
      rw [packWords_nil]
      by_cases hg0 : g = []
      · subst hg0
        rw [if_pos (show (joinSpace [] : List Char).isEmpty = true from rfl)]
        exact ⟨fun ch hch => absurd hch (by simp), by simp⟩
      · rw [if_neg (by
          simp only [List.isEmpty_iff]
          exact joinSpace_ne_nil g hg0 (fun x hx => (hg x hx).1))]
        refine ⟨?_, ?_⟩
        · intro ch hch
          rcases List.mem_singleton.mp hch with rfl
          exact hlen
        · simp [splitWords_joinSpace g hg]
  | cons w ws ih =>
      intro g cur hcur hws hg hlen
      subst hcur
      have hw := hws w (List.mem_cons_self w ws)
      have hws2 : ∀ x ∈ ws, x ≠ [] ∧ (∀ c ∈ x, isWs c = false) ∧ x.length ≤ 159 :=
        fun x hx => hws x (List.mem_cons_of_mem w hx)
      rw [packWords_cons]
      by_cases hcond : (joinSpace g).length + w.length + 1 > 160
      · rw [if_pos hcond]
        have hg0 : g ≠ [] := by
          intro h0
          subst h0
          have : w.length ≤ 159 := hw.2.2
          simp only [joinSpace, List.length_nil] at hcond
          omega
        have ihh := ih [w] w rfl hws2
          (by
            intro x hx
            rcases List.mem_singleton.mp hx with rfl
            exact ⟨hw.1, hw.2.1⟩)
          (by
            have : w.length ≤ 159 := hw.2.2
            show w.length ≤ 160
            omega)
        refine ⟨?_, ?_⟩
        · intro ch hch
          rcases List.mem_cons.mp hch with rfl | hch2
          · exact hlen
          · exact ihh.1 ch hch2
        · rw [List.map_cons, List.flatten_cons,
            splitWords_joinSpace g hg, ihh.2]
          simp
      · rw [if_neg hcond]
        by_cases hg0 : g = []
        · subst hg0
          rw [if_pos (show (joinSpace [] : List Char).isEmpty = true from rfl)]
          have ihh := ih [w] w rfl hws2
            (by
              intro x hx
              rcases List.mem_singleton.mp hx with rfl
              exact ⟨hw.1, hw.2.1⟩)
            (by
              have : w.length ≤ 159 := hw.2.2
              show w.length ≤ 160
              omega)
          exact ⟨ihh.1, by rw [ihh.2]; simp⟩
        · rw [if_neg (by
            simp only [List.isEmpty_iff]
            exact joinSpace_ne_nil g hg0 (fun x hx => (hg x hx).1))]
          have hsnoc := joinSpace_snoc g w hg0
          have hg2 : ∀ x ∈ g ++ [w], x ≠ [] ∧ ∀ c ∈ x, isWs c = false := by
            intro x hx
            rcases List.mem_append.mp hx with hx1 | hx2
            · exact hg x hx1
            · rcases List.mem_singleton.mp hx2 with rfl
              exact ⟨hw.1, hw.2.1⟩
          have hlen2 : (joinSpace g ++ ' ' :: w).length ≤ 160 := by
            simp only [List.length_append, List.length_cons]
            omega
          have ihh := ih (g ++ [w]) (joinSpace g ++ ' ' :: w) hsnoc.symm
            hws2 hg2 hlen2
          refine ⟨ihh.1, ?_⟩
          rw [ihh.2]
          simp

/-- Counterexample to C7 as stated: a 500-character sentence with no
punctuation consisting of a single unbroken word is split into an empty chunk
followed by a 500-character chunk, violating the 160-character bound. -/
theorem tts_chunking_counterexample :
    (List.replicate 500 'a').length = 500 ∧
    (∀ c ∈ List.replicate 500 'a', isSentenceTerm c = false) ∧
    ¬ (∀ ch ∈ speakChunks (List.replicate 500 'a'), ch.length ≤ 160) := by
  refine ⟨by decide, by decide, by decide⟩

/-- Claim C7 amended: for every reply text that contains no sentence
terminator and whose whitespace-delimited words each have at most 159
characters (which holds for ordinary 500-character sentences without
punctuation), the splitter produces chunks of at most 160 characters whose
chunk boundaries lie only at word boundaries: concatenating the words of the
chunks in order reproduces exactly the words of the original text. -/
theorem tts_chunking_spec (text : List Char)
    (hterm : ∀ c ∈ text, isSentenceTerm c = false)
    (hwords : ∀ w ∈ splitWordsChars text, w.length ≤ 159) :
    (∀ ch ∈ speakChunks text, ch.length ≤ 160) ∧
    ((speakChunks text).map splitWordsChars).flatten = splitWordsChars text := by
  unfold speakChunks
  rw [sentencesOf_no_term text hterm]
  by_cases ht0 : text.isEmpty = true
  · rw [if_pos ht0]
    rw [List.isEmpty_iff.mp ht0]
    exact ⟨fun ch hch => absurd hch (by simp), rfl⟩
  · rw [if_neg ht0]
    have hred : (([text] : List (List Char)).map chunkSentence).flatten =
        chunkSentence text := by simp
    rw [hred, chunkSentence_eq]
    by_cases h1 : (trimChars text).isEmpty = true
    · rw [if_pos h1]
      refine ⟨fun ch hch => absurd hch (by simp), ?_⟩
      have hkey := splitWords_trim text
      rw [List.isEmpty_iff.mp h1] at hkey
      rw [← hkey]
      rfl
    · rw [if_neg h1]
      by_cases h2 : (trimChars text).length > 160
      · rw [if_pos h2]
        have hkey := splitWords_trim text
        have hwords2 : ∀ w ∈ splitWordsChars (trimChars text),
            w ≠ [] ∧ (∀ c ∈ w, isWs c = false) ∧ w.length ≤ 159 := by
          intro w hw
          have ha := splitWordsAux_ok (trimChars text) [] (by simp) w hw
          exact ⟨ha.1, ha.2, hwords w (by rw [← hkey]; exact hw)⟩
        have hp := packWords_spec (splitWordsChars (trimChars text)) [] [] rfl
          hwords2 (by simp) (by simp)
        refine ⟨hp.1, ?_⟩
        rw [hp.2, List.nil_append]
        exact hkey
      · rw [if_neg h2]
        refine ⟨?_, ?_⟩
        · intro ch hch
          rcases List.mem_singleton.mp hch with rfl
          omega
        · simp only [List.map_singleton, List.flatten_cons, List.flatten_nil,
            List.append_nil]
          exact splitWords_trim text

/-- Witness for the amended C7: a 500-character sentence of one hundred
four-letter words is chunked within the 160-character budget and its chunks
reproduce the original words in order. -/
theorem tts_chunking_spec_witness :
    (∀ ch ∈ speakChunks c7text, ch.length ≤ 160) ∧
    ((speakChunks c7text).map splitWordsChars).flatten = splitWordsChars c7text :=
  tts_chunking_spec c7text (by decide) (by decide)

end LiveChatModel
